import Mathlib

/-!
# Verification of `openai_streaming_tools.py`

A shallow embedding of the streaming tool-call reassembly and dispatch
protocol implemented by `ask_question` (and its helpers `fun_1`, `fun_2`)
in `src/openai_streaming_tools.py`, together with proofs of the spec's
claims about it.

Modelling conventions:
* Python/JSON values are the inductive type `JVal`; Python `dict`s are
  association lists in insertion order (as produced by `json.loads`).
* `json.dumps` is `jsonDump` (default separators `", "` / `": "`),
  `json.loads` is `jsonParse` (a fuel-based recursive-descent parser that
  fails on partial input, as `json.loads` raises `JSONDecodeError`).
* The provider stream is a list of `Chunk`s; network transport is outside
  the embedding, exactly as the spec scopes it out.
* The mutable state of one `ask_question` call (`collected`,
  `partial_args`, `tool_name`, `tool_output_chunks`, the global `history`,
  and the generator's yielded output) is the structure `S`, threaded
  explicitly through the per-chunk step functions.
-/

namespace OpenAIStreamingTools

/-- JSON-like values: the value universe of `json.loads` / `json.dumps` and
of the tool handlers' yields.  Floats carry sign, integer part and the
fractional digit string verbatim (no float arithmetic is performed by the
source, so this loses nothing). -/
inductive JVal : Type where
  | null : JVal
  | bool (b : Bool) : JVal
  | int (n : Int) : JVal
  | float (neg : Bool) (ip : Nat) (frac : String) : JVal
  | str (s : String) : JVal
  | arr (items : List JVal) : JVal
  | obj (fields : List (String × JVal)) : JVal

/-- First-occurrence lookup in an association list (Python `d[k]` /
`d.get(k)` on dicts, whose keys are unique). -/
def getKey (kvs : List (String × JVal)) (k : String) : Option JVal :=
  match kvs with
  | [] => none
  | (k1, v) :: rest => if k1 = k then some v else getKey rest k

/-- Python dict insertion: keep the position of the first insertion,
overwrite the value (the semantics `json.loads` gives duplicate keys). -/
def insertKey (kvs : List (String × JVal)) (k : String) (v : JVal) :
    List (String × JVal) :=
  match kvs with
  | [] => [(k, v)]
  | (k1, v1) :: rest =>
    if k1 = k then (k, v) :: rest else (k1, v1) :: insertKey rest k v

/-- Python truthiness (`if x:`) on JSON-like values. -/
def pyTruthy : JVal → Bool
  | .null => false
  | .bool b => b
  | .int n => n != 0
  | .float _ ip frac => !(ip == 0 && frac.toList.all (· == '0'))
  | .str s => s != ""
  | .arr items => !items.isEmpty
  | .obj fields => !fields.isEmpty

/-- Python `x or d` for an optional string `x` (`None` and `""` are falsy). -/
def pyOr (o : Option String) (d : String) : String :=
  match o with
  | some s => if s = "" then d else s
  | none => d

/-- Python truthiness of an `Optional[str]` variable. -/
def pyTruthyOptStr : Option String → Bool
  | some s => s != ""
  | none => false

/-- JSON string escaping of one character, as `json.dumps` emits it
(the source's strings contain no other escapable characters). -/
def escapeChar (c : Char) : String :=
  if c = '"' then "\\\""
  else if c = '\\' then "\\\\"
  else if c = '\n' then "\\n"
  else if c = '\t' then "\\t"
  else if c = '\r' then "\\r"
  else String.singleton c

/-- JSON string escaping, character by character. -/
def escapeJson (s : String) : String :=
  String.join (s.toList.map escapeChar)

/-- Rendering of a float literal back to text. -/
def floatRepr (neg : Bool) (ip : Nat) (frac : String) : String :=
  (if neg then "-" else "") ++ toString ip ++ "." ++ frac

mutual

/-- `json.dumps` with its default separators (`", "`, `": "`), as called at
lines 172 and 211 of the source. -/
def jsonDump : JVal → String
  | .null => "null"
  | .bool true => "true"
  | .bool false => "false"
  | .int n => toString n
  | .float neg ip frac => floatRepr neg ip frac
  | .str s => "\"" ++ escapeJson s ++ "\""
  | .arr items => "[" ++ dumpItems items ++ "]"
  | .obj fields => "\x7b" ++ dumpFields fields ++ "\x7d"

/-- Comma-joined array elements for `jsonDump`. -/
def dumpItems : List JVal → String
  | [] => ""
  | [v] => jsonDump v
  | v :: rest => jsonDump v ++ ", " ++ dumpItems rest

/-- Comma-joined `"key": value` pairs for `jsonDump`. -/
def dumpFields : List (String × JVal) → String
  | [] => ""
  | [(k, v)] => "\"" ++ escapeJson k ++ "\": " ++ jsonDump v
  | (k, v) :: rest =>
    "\"" ++ escapeJson k ++ "\": " ++ jsonDump v ++ ", " ++ dumpFields rest

end

/-- JSON whitespace. -/
def isWs (c : Char) : Bool :=
  c = ' ' || c = '\t' || c = '\n' || c = '\r'

/-- Drop leading JSON whitespace. -/
def skipWs (cs : List Char) : List Char :=
  cs.dropWhile isWs

/-- Decimal digits to a natural number. -/
def digitsToNat (ds : List Char) : Nat :=
  ds.foldl (fun a c => a * 10 + (c.toNat - 48)) 0

/-- Parse a JSON number (integer or decimal fraction; exponents and other
extensions of the grammar are not used by this program's streams and are
rejected). -/
def parseNumber (cs : List Char) : Option (JVal × List Char) :=
  let (neg, cs1) :=
    match cs with
    | '-' :: rest => (true, rest)
    | _ => (false, cs)
  let ds := cs1.takeWhile Char.isDigit
  let rest := cs1.dropWhile Char.isDigit
  if ds.isEmpty then none
  else if ds.length > 1 && ds.head? = some '0' then none
  else
    match rest with
    | '.' :: rest2 =>
      let fs := rest2.takeWhile Char.isDigit
      let rest3 := rest2.dropWhile Char.isDigit
      if fs.isEmpty then none
      else some (.float neg (digitsToNat ds) (String.mk fs), rest3)
    | _ =>
      let ip : Int := (digitsToNat ds : Int)
      some (.int (if neg then -ip else ip), rest)

/-- Parse the body of a JSON string after the opening quote. -/
def parseStr : Nat → List Char → Option (String × List Char)
  | 0, _ => none
  | _, [] => none
  | fuel + 1, c :: rest =>
    if c = '"' then some ("", rest)
    else if c = '\\' then
      match rest with
      | [] => none
      | e :: rest2 =>
        let esc : Option Char :=
          if e = 'n' then some '\n'
          else if e = 't' then some '\t'
          else if e = 'r' then some '\r'
          else if e = '"' then some '"'
          else if e = '\\' then some '\\'
          else if e = '/' then some '/'
          else if e = 'b' then some (Char.ofNat 8)
          else if e = 'f' then some (Char.ofNat 12)
          else none
        match esc with
        | none => none
        | some ec =>
          match parseStr fuel rest2 with
          | some (s, rem) => some (String.singleton ec ++ s, rem)
          | none => none
    else
      match parseStr fuel rest with
      | some (s, rem) => some (String.singleton c ++ s, rem)
      | none => none

mutual

/-- Parse one JSON value (fuel-based recursive descent). -/
def parseVal : Nat → List Char → Option (JVal × List Char)
  | 0, _ => none
  | fuel + 1, cs =>
    match skipWs cs with
    | 'n' :: 'u' :: 'l' :: 'l' :: rest => some (.null, rest)
    | 't' :: 'r' :: 'u' :: 'e' :: rest => some (.bool true, rest)
    | 'f' :: 'a' :: 'l' :: 's' :: 'e' :: rest => some (.bool false, rest)
    | '"' :: rest =>
      (match parseStr fuel rest with
       | some (s, rem) => some (.str s, rem)
       | none => none)
    | '[' :: rest =>
      (match skipWs rest with
       | ']' :: rem => some (.arr [], rem)
       | _ =>
         match parseItems fuel rest with
         | some (vs, rem) => some (.arr vs, rem)
         | none => none)
    | '\x7b' :: rest =>
      (match skipWs rest with
       | '\x7d' :: rem => some (.obj [], rem)
       | _ =>
         match parseFields fuel rest [] with
         | some (kvs, rem) => some (.obj kvs, rem)
         | none => none)
    | rest => parseNumber rest

/-- Parse the comma-separated elements of a non-empty array, consuming the
closing bracket. -/
def parseItems : Nat → List Char → Option (List JVal × List Char)
  | 0, _ => none
  | fuel + 1, cs =>
    match parseVal fuel cs with
    | none => none
    | some (v, rem) =>
      match skipWs rem with
      | ',' :: rem2 =>
        (match parseItems fuel rem2 with
         | some (vs, rem3) => some (v :: vs, rem3)
         | none => none)
      | ']' :: rem2 => some ([v], rem2)
      | _ => none

/-- Parse the `"key": value` members of a non-empty object, consuming the
closing brace, with Python-dict duplicate-key semantics. -/
def parseFields : Nat → List Char → List (String × JVal) →
    Option (List (String × JVal) × List Char)
  | 0, _, _ => none
  | fuel + 1, cs, acc =>
    match skipWs cs with
    | '"' :: rest =>
      (match parseStr fuel rest with
       | none => none
       | some (k, rem) =>
         match skipWs rem with
         | ':' :: rem2 =>
           (match parseVal fuel rem2 with
            | none => none
            | some (v, rem3) =>
              let acc2 := insertKey acc k v
              match skipWs rem3 with
              | ',' :: rem4 => parseFields fuel rem4 acc2
              | '\x7d' :: rem4 => some (acc2, rem4)
              | _ => none)
         | _ => none)
    | _ => none

end

/-- `json.loads`: parse a complete JSON document, rejecting trailing
garbage (a prefix that is not a full document raises `JSONDecodeError`,
modelled as `none`). -/
def jsonParse (s : String) : Option JVal :=
  let cs := s.toList
  match parseVal (2 * cs.length + 2) cs with
  | some (v, rem) => if (skipWs rem).isEmpty then some v else none
  | none => none

/-- The yield-normalization of `ask_question` (source lines 180–199): a
non-dict yield is wrapped as `{display: value, store: False}`; a dict gets
`store` defaulted to `False` when missing, and a missing `display` is
synthesized from all remaining keys except `store` (or `""` when there are
none).  Dict updates append the new key at the end, as Python insertion
does. -/
def normalizeYield (v : JVal) : JVal :=
  match v with
  | .obj kvs =>
    let kvs1 :=
      if (getKey kvs "store").isSome then kvs
      else kvs ++ [("store", JVal.bool false)]
    let kvs2 :=
      if (getKey kvs1 "display").isSome then kvs1
      else
        let display_data := kvs1.filter (fun kv => kv.1 ≠ "store")
        if display_data.isEmpty then kvs1 ++ [("display", JVal.str "")]
        else kvs1 ++ [("display", JVal.obj display_data)]
    .obj kvs2
  | other => .obj [("display", other), ("store", .bool false)]

/-- `yield_part["display"]` on a normalized yield (the key is always
present after normalization). -/
def dispOf (np : JVal) : JVal :=
  match np with
  | .obj kvs => (getKey kvs "display").getD .null
  | _ => .null

/-- `yield_part.get("store", False)` on a normalized yield. -/
def storeOf (np : JVal) : JVal :=
  match np with
  | .obj kvs => (getKey kvs "store").getD (.bool false)
  | _ => .bool false

/-- The display values one raw yield contributes to `tool_output_chunks`
(`[display]` when its normalized `store` is truthy, else nothing). -/
def storedItem (raw : JVal) : List JVal :=
  let np := normalizeYield raw
  if pyTruthy (storeOf np) then [dispOf np] else []

/-- The stored display values of a whole yield sequence, in order. -/
def storedOf (l : List JVal) : List JVal :=
  l.flatMap storedItem

/-- The display values one raw yield emits to the caller (`[display]` when
the normalized display is truthy, else nothing). -/
def emittedItem (raw : JVal) : List JVal :=
  let np := normalizeYield raw
  if pyTruthy (dispOf np) then [dispOf np] else []

/-- The emitted display values of a whole yield sequence, in order. -/
def emittedOf (l : List JVal) : List JVal :=
  l.flatMap emittedItem

/-- The yields of the example tool `fun_1` (source lines 10–19). -/
def fun_1_yields : List JVal :=
  [ .obj [("display", .str "fun_1fun_1fun_1fun_1"), ("store", .bool true)],
    .str "LAST OF: fun_1" ]

/-- The nested demo dictionary built inside `fun_2` (source lines 52–61). -/
def fun_2_inner_dict : JVal :=
  .obj
    [ ("fun_2_string", .str "Hi this is fun_2"),
      ("fun_2_int", .int 67),
      ("fun_2_float", .float false 3 "14"),
      ("fun_2_bool", .bool true),
      ("fun_2_dict",
        .obj [("fun_2_test1", .str "test1"), ("fun_2_test2", .str "test2")]) ]

/-- The yields of the tool handler `fun_2(a, b)` (source lines 22–71);
`print` side effects go to the terminal only and are not observable to the
core, so they are not modelled. -/
def fun_2_yields (a b : Int) : List JVal :=
  fun_1_yields ++
  [ .str "fun_2 plain string test ** only be showed in terminal **",
    .obj
      [ ("display",
          .str "fun_2 using proper yield format ** should be stored in history and be showed in terminal **"),
        ("store", .bool true) ],
    .obj
      [ ("display",
          .str "fun_2 using proper yield format ** should not be stored in history and be showed in terminal **"),
        ("store", .bool false) ],
    .obj
      [ ("display",
          .obj
            [ ("DICT fun_2", .str "this should be stored in chat history"),
              ("success", .bool true),
              ("result", fun_2_inner_dict) ]),
        ("code", .int 200),
        ("store", .bool true) ],
    .null,
    .obj [],
    .obj [("display", .str ("result = " ++ toString (a + b))),
          ("store", .bool true)] ]

/-- `fun_2(**args)` (source line 179): keyword expansion requires the
parsed arguments to be an object binding exactly the parameters `a` and
`b`; the declared schema types them as integers, and a binding that does
not fit is modelled as a handler-invocation failure (Python raises out of
the generator). -/
def callFun2 (args : JVal) : Option (List JVal) :=
  match args with
  | .obj kvs =>
    (match getKey kvs "a", getKey kvs "b" with
     | some (.int a), some (.int b) =>
       if kvs.length = 2 then some (fun_2_yields a b) else none
     | _, _ => none)
  | _ => none

/-- One transcript entry of the global `history` list: the `user` turn
(line 110), the assistant tool-call turn (lines 164–176, whose single
pending call carries `id`, `name` and the re-serialized arguments), the
tool-result turn (lines 213–218, `tool_call_id`/`name`/`content`), and the
closing assistant text turn (line 250). -/
inductive Msg : Type where
  | user (content : String)
  | assistantToolCall (call_id tool_name arguments_json : String)
  | toolResult (call_id tool_name content : String)
  | assistantText (content : String)

/-- One element of `choice.delta.tool_calls`: optional function name,
optional call id, and the (possibly empty) arguments fragment. -/
structure TCDelta : Type where
  name : Option String
  id : Option String
  args : String

/-- One stream chunk holding a choice delta: optional text content and the
list of tool-call deltas (both possibly absent). -/
structure Chunk : Type where
  content : Option String := none
  toolCalls : List TCDelta := []

/-- The state of one `ask_question` invocation: the source's locals
`collected`, `partial_args` (named `arg_buffer` here), `tool_name`,
`tool_output_chunks`, the global `history`, plus observers of the
generator's behaviour: `out` (everything yielded to the caller, text and
display values alike), `dispatches`/`dispatchedArgs` (one entry per parse
success reaching the handler invocation at line 179), `errored` (an
uncaught exception has escaped the chunk loop) and `followupOpened` (the
phase-2 branch at line 225 was entered). -/
structure S : Type where
  collected : String
  arg_buffer : String
  tool_name : Option String
  tool_output_chunks : List JVal
  history : List Msg
  out : List JVal
  dispatches : Nat
  dispatchedArgs : List JVal
  errored : Bool
  followupOpened : Bool

/-- Processing of one raw tool yield (source lines 179–209): normalize,
emit the display value to the caller when truthy, and append it to
`tool_output_chunks` when the `store` flag is truthy. -/
def processYield (s : S) (raw : JVal) : S :=
  let np := normalizeYield raw
  let display_value := dispOf np
  let s1 :=
    if pyTruthy display_value then { s with out := s.out ++ [display_value] }
    else s
  if pyTruthy (storeOf np) then
    { s1 with tool_output_chunks := s1.tool_output_chunks ++ [display_value] }
  else s1

/-- The synthesized call id `f"call_{int(time.time() * 1000)}"` of source
line 151, with the clock value passed in as `now`. -/
def synthId (now : Nat) : String :=
  "call_" ++ toString now

/-- Processing of one tool-call delta (source lines 148–222): recompute
`tool_name` and `tool_id` from this fragment, skip empty argument
fragments, append the fragment to the argument buffer, and try to parse
the whole buffer.  On parse failure, keep buffering (the
`json.JSONDecodeError` branch).  On success, append the assistant
tool-call turn, invoke `fun_2` over the parsed arguments (a binding
failure escapes as an exception, leaving `errored`), feed its yields
through `processYield`, append the tool-result turn with the serialized
accumulator, and reset the buffer. -/
def toolStep (now : Nat) (s : S) (tc : TCDelta) : S :=
  if s.errored then s
  else
    let tname := pyOr tc.name "worlds"
    let tid := pyOr tc.id (synthId now)
    let s1 := { s with tool_name := some tname }
    if tc.args = "" then s1
    else
      let buf := s1.arg_buffer ++ tc.args
      let s2 := { s1 with arg_buffer := buf }
      match jsonParse buf with
      | none => s2
      | some args =>
        let s3 :=
          { s2 with
            history := s2.history ++
              [.assistantToolCall tid tname (jsonDump args)],
            dispatches := s2.dispatches + 1,
            dispatchedArgs := s2.dispatchedArgs ++ [args] }
        match callFun2 args with
        | none => { s3 with errored := true }
        | some yields =>
          let s4 := yields.foldl processYield s3
          { s4 with
            history := s4.history ++
              [.toolResult tid tname
                (jsonDump (.arr s4.tool_output_chunks))],
            arg_buffer := "" }

/-- Processing of one phase-1 chunk (source lines 134–222): forward and
accumulate the text delta when truthy, then feed every tool-call delta to
`toolStep`.  When an exception has already escaped, the loop is over and
the chunk is not processed. -/
def chunkStep (now : Nat) (s : S) (c : Chunk) : S :=
  if s.errored then s
  else
    let s1 :=
      match c.content with
      | some d =>
        if d ≠ "" then
          { s with out := s.out ++ [.str d], collected := s.collected ++ d }
        else s
      | none => s
    c.toolCalls.foldl (toolStep now) s1

/-- Phase 1: the whole primary stream. -/
def phase1 (now : Nat) (s : S) (chunks : List Chunk) : S :=
  chunks.foldl (chunkStep now) s

/-- Processing of one follow-up chunk (source lines 240–245): text deltas
only; tool-call deltas of the follow-up stream are ignored. -/
def phase2Step (s : S) (c : Chunk) : S :=
  match c.content with
  | some d =>
    if d ≠ "" then
      { s with out := s.out ++ [.str d], collected := s.collected ++ d }
    else s
  | none => s

/-- The phase-2 gate `if tool_output_chunks and tool_name:` (line 225). -/
def followCond (s : S) : Bool :=
  !s.tool_output_chunks.isEmpty && pyTruthyOptStr s.tool_name

/-- The state at entry of `ask_question(ask)`: the user turn has been
appended to `history` (line 110) and all locals are at their initial
values (lines 127–131). -/
def initS (hist0 : List Msg) (q : String) : S :=
  { collected := ""
    arg_buffer := ""
    tool_name := none
    tool_output_chunks := []
    history := hist0 ++ [.user q]
    out := []
    dispatches := 0
    dispatchedArgs := []
    errored := false
    followupOpened := false }

/-- The `finally` block (line 250): append the closing assistant text
turn, on every exit route. -/
def finalizeCycle (s : S) : S :=
  { s with history := s.history ++ [.assistantText s.collected] }

/-- The sentinel yielded on `KeyboardInterrupt` (line 248). -/
def interruptSentinel : JVal :=
  .str "\n[INTERRUPTED]\n"

/-- Phase 2 of a cycle that was not aborted by an exception (lines
224–245): when the gate holds, open the follow-up stream and forward its
text deltas; otherwise do nothing. -/
def askPhase2 (s1 : S) (followup : List Chunk) : S :=
  if s1.errored = false && followCond s1 then
    { followup.foldl phase2Step s1 with followupOpened := true }
  else s1

/-- A full `ask_question` cycle without interruption: phase 1 over the
primary stream, the gated follow-up stream, then finalization. -/
def askRun (hist0 : List Msg) (q : String)
    (primary followup : List Chunk) (now : Nat) : S :=
  finalizeCycle (askPhase2 (phase1 now (initS hist0 q) primary) followup)

/-- An `ask_question` cycle interrupted cooperatively during phase 1 after
`k` chunks: the sentinel is yielded, then the `finally` block runs. -/
def askRunInt1 (hist0 : List Msg) (q : String) (primary : List Chunk)
    (now : Nat) (k : Nat) : S :=
  finalizeCycle
    { phase1 now (initS hist0 q) (primary.take k) with
      out := (phase1 now (initS hist0 q) (primary.take k)).out ++
        [interruptSentinel] }

/-- Phase 2 interrupted after `k` follow-up chunks, then finalization
(meaningful when the follow-up gate was taken, which is when an
interruption inside phase 2 can occur at all). -/
def askInt2 (s1 : S) (followup : List Chunk) (k : Nat) : S :=
  if s1.errored = false && followCond s1 then
    finalizeCycle
      { (followup.take k).foldl phase2Step s1 with
        out := ((followup.take k).foldl phase2Step s1).out ++
          [interruptSentinel],
        followupOpened := true }
  else finalizeCycle s1

/-- An `ask_question` cycle interrupted cooperatively during phase 2 after
`k` follow-up chunks. -/
def askRunInt2 (hist0 : List Msg) (q : String)
    (primary followup : List Chunk) (now : Nat) (k : Nat) : S :=
  askInt2 (phase1 now (initS hist0 q) primary) followup k

/-- The text contribution of one chunk (`""` when absent). -/
def contentStr (c : Chunk) : String :=
  match c.content with
  | some d => d
  | none => ""

/-- Concatenation of all text deltas of a chunk list. -/
def textConcat (l : List Chunk) : String :=
  l.foldl (fun a c => a ++ contentStr c) ""

/-- The text delta one chunk forwards to the caller (empty or singleton). -/
def textOutOf (c : Chunk) : List JVal :=
  match c.content with
  | some d => if d = "" then [] else [JVal.str d]
  | none => []

/-- The text deltas a chunk list forwards to the caller, in order. -/
def textOuts (l : List Chunk) : List JVal :=
  l.flatMap textOutOf

example : jsonParse "\x7b\"a\":" = none := by rfl
example : jsonParse "\x7b\"a\":1,\"b\":2\x7d" =
    some (.obj [("a", .int 1), ("b", .int 2)]) := by rfl
example : jsonParse "  [1, \"x\", true, null, 3.14] " =
    some (.arr [.int 1, .str "x", .bool true, .null, .float false 3 "14"]) := by
  rfl
example : jsonDump (.obj [("a", .int 1), ("b", .int 2)]) =
    "\x7b\"a\": 1, \"b\": 2\x7d" := by rfl
example : jsonDump (.arr [.str "a", .str "c"]) = "[\"a\", \"c\"]" := by rfl

/-! ## Basic step lemmas -/

theorem processYield_fields (s : S) (raw : JVal) :
    (processYield s raw).history = s.history ∧
    (processYield s raw).dispatches = s.dispatches ∧
    (processYield s raw).errored = s.errored ∧
    (processYield s raw).arg_buffer = s.arg_buffer ∧
    (processYield s raw).collected = s.collected ∧
    (processYield s raw).tool_name = s.tool_name ∧
    (processYield s raw).dispatchedArgs = s.dispatchedArgs ∧
    (processYield s raw).followupOpened = s.followupOpened := by
  by_cases hd : pyTruthy (dispOf (normalizeYield raw)) <;>
    by_cases hs : pyTruthy (storeOf (normalizeYield raw)) <;>
      simp [processYield, hd, hs]

theorem processYield_chunks (s : S) (raw : JVal) :
    (processYield s raw).tool_output_chunks
      = s.tool_output_chunks ++ storedItem raw := by
  by_cases hd : pyTruthy (dispOf (normalizeYield raw)) <;>
    by_cases hs : pyTruthy (storeOf (normalizeYield raw)) <;>
      simp [processYield, storedItem, hd, hs]

theorem processYield_out (s : S) (raw : JVal) :
    (processYield s raw).out = s.out ++ emittedItem raw := by
  by_cases hd : pyTruthy (dispOf (normalizeYield raw)) <;>
    by_cases hs : pyTruthy (storeOf (normalizeYield raw)) <;>
      simp [processYield, emittedItem, hd, hs]

theorem foldl_processYield_fields (l : List JVal) (s : S) :
    ((l.foldl processYield s).history = s.history ∧
     (l.foldl processYield s).dispatches = s.dispatches ∧
     (l.foldl processYield s).errored = s.errored ∧
     (l.foldl processYield s).arg_buffer = s.arg_buffer ∧
     (l.foldl processYield s).collected = s.collected ∧
     (l.foldl processYield s).tool_name = s.tool_name ∧
     (l.foldl processYield s).dispatchedArgs = s.dispatchedArgs ∧
     (l.foldl processYield s).followupOpened = s.followupOpened) := by
  induction l generalizing s with
  | nil =>
    exact ⟨rfl, rfl, rfl, rfl, rfl, rfl, rfl, rfl⟩
  | cons x xs ih =>
    have h := processYield_fields s x
    have h2 := ih (processYield s x)
    simp only [List.foldl_cons]
    exact ⟨h2.1.trans h.1, h2.2.1.trans h.2.1, h2.2.2.1.trans h.2.2.1,
      h2.2.2.2.1.trans h.2.2.2.1, h2.2.2.2.2.1.trans h.2.2.2.2.1,
      h2.2.2.2.2.2.1.trans h.2.2.2.2.2.1,
      h2.2.2.2.2.2.2.1.trans h.2.2.2.2.2.2.1,
      h2.2.2.2.2.2.2.2.trans h.2.2.2.2.2.2.2⟩

theorem foldl_processYield_chunks (l : List JVal) (s : S) :
    (l.foldl processYield s).tool_output_chunks
      = s.tool_output_chunks ++ storedOf l := by
  induction l generalizing s with
  | nil => simp [storedOf]
  | cons x xs ih =>
    simp only [List.foldl_cons]
    rw [ih, processYield_chunks]
    simp [storedOf, List.append_assoc]

theorem foldl_processYield_out (l : List JVal) (s : S) :
    (l.foldl processYield s).out = s.out ++ emittedOf l := by
  induction l generalizing s with
  | nil => simp [emittedOf]
  | cons x xs ih =>
    simp only [List.foldl_cons]
    rw [ih, processYield_out]
    simp [emittedOf, List.append_assoc]

/-! ## `toolStep` branch characterizations -/

theorem toolStep_errored (now : Nat) (s : S) (tc : TCDelta)
    (he : s.errored = true) : toolStep now s tc = s := by
  simp [toolStep, he]

theorem toolStep_eq_empty (now : Nat) (s : S) (tc : TCDelta)
    (he : s.errored = false) (ha : tc.args = "") :
    toolStep now s tc = { s with tool_name := some (pyOr tc.name "worlds") } := by
  simp [toolStep, he, ha]

theorem toolStep_eq_buffering (now : Nat) (s : S) (tc : TCDelta)
    (he : s.errored = false) (ha : ¬tc.args = "")
    (hp : jsonParse (s.arg_buffer ++ tc.args) = none) :
    toolStep now s tc =
      { s with
        tool_name := some (pyOr tc.name "worlds"),
        arg_buffer := s.arg_buffer ++ tc.args } := by
  simp [toolStep, he, ha, hp]

theorem toolStep_eq_failDispatch (now : Nat) (s : S) (tc : TCDelta)
    (args : JVal)
    (he : s.errored = false) (ha : ¬tc.args = "")
    (hp : jsonParse (s.arg_buffer ++ tc.args) = some args)
    (hc : callFun2 args = none) :
    toolStep now s tc =
      { s with
        tool_name := some (pyOr tc.name "worlds"),
        arg_buffer := s.arg_buffer ++ tc.args,
        history := s.history ++
          [.assistantToolCall (pyOr tc.id (synthId now))
            (pyOr tc.name "worlds") (jsonDump args)],
        dispatches := s.dispatches + 1,
        dispatchedArgs := s.dispatchedArgs ++ [args],
        errored := true } := by
  simp [toolStep, he, ha, hp, hc]

theorem toolStep_eq_dispatch (now : Nat) (s : S) (tc : TCDelta)
    (args : JVal) (yields : List JVal)
    (he : s.errored = false) (ha : ¬tc.args = "")
    (hp : jsonParse (s.arg_buffer ++ tc.args) = some args)
    (hc : callFun2 args = some yields) :
    toolStep now s tc =
      { s with
        tool_name := some (pyOr tc.name "worlds"),
        arg_buffer := "",
        history := s.history ++
          [.assistantToolCall (pyOr tc.id (synthId now))
            (pyOr tc.name "worlds") (jsonDump args),
           .toolResult (pyOr tc.id (synthId now)) (pyOr tc.name "worlds")
            (jsonDump (.arr (s.tool_output_chunks ++ storedOf yields)))],
        dispatches := s.dispatches + 1,
        dispatchedArgs := s.dispatchedArgs ++ [args],
        tool_output_chunks := s.tool_output_chunks ++ storedOf yields,
        out := s.out ++ emittedOf yields } := by
  have hfields := foldl_processYield_fields yields
  have hchunks := foldl_processYield_chunks yields
  have hout := foldl_processYield_out yields
  simp only [toolStep, he, ha, hp, hc]
  simp only [Bool.false_eq_true, if_false, if_neg ha]
  rw [hfields _ |>.1, hchunks, hout]
  simp only [List.append_assoc, List.cons_append, List.nil_append, S.mk.injEq,
    and_true, true_and, List.singleton_append]
  exact ⟨(hfields _).2.2.2.2.1, (hfields _).2.2.2.2.2.1, (hfields _).2.1,
    (hfields _).2.2.2.2.2.2.1, (hfields _).2.2.1, (hfields _).2.2.2.2.2.2.2⟩

/-! ## Derived preservation lemmas -/

theorem foldl_pres {α σ : Type} {f : σ → α → σ} {P : σ → Prop}
    (hf : ∀ s a, P s → P (f s a)) :
    ∀ (l : List α) (s : σ), P s → P (l.foldl f s) := by
  intro l
  induction l with
  | nil => intro s h; exact h
  | cons x xs ih =>
    intro s h
    exact ih (f s x) (hf s x h)

theorem toolStep_collected_followup (now : Nat) (s : S) (tc : TCDelta) :
    (toolStep now s tc).collected = s.collected ∧
    (toolStep now s tc).followupOpened = s.followupOpened := by
  cases hE : s.errored with
  | true => rw [toolStep_errored now s tc hE]; exact ⟨rfl, rfl⟩
  | false =>
    by_cases ha : tc.args = ""
    · rw [toolStep_eq_empty now s tc hE ha]; exact ⟨rfl, rfl⟩
    · cases hp : jsonParse (s.arg_buffer ++ tc.args) with
      | none =>
        rw [toolStep_eq_buffering now s tc hE ha hp]; exact ⟨rfl, rfl⟩
      | some args =>
        cases hc : callFun2 args with
        | none =>
          rw [toolStep_eq_failDispatch now s tc args hE ha hp hc]
          exact ⟨rfl, rfl⟩
        | some yields =>
          rw [toolStep_eq_dispatch now s tc args yields hE ha hp hc]
          exact ⟨rfl, rfl⟩

theorem chunkStep_errored_id (now : Nat) (s : S) (c : Chunk)
    (he : s.errored = true) : chunkStep now s c = s := by
  simp [chunkStep, he]

theorem phase1_sticky (now : Nat) (chunks : List Chunk) (s : S)
    (he : s.errored = true) : phase1 now s chunks = s := by
  induction chunks with
  | nil => rfl
  | cons c cs ih =>
    show phase1 now (chunkStep now s c) cs = s
    rw [chunkStep_errored_id now s c he]
    exact ih

theorem phase1_errored_back (now : Nat) (chunks : List Chunk) (s : S)
    (h : (phase1 now s chunks).errored = false) : s.errored = false := by
  cases hE : s.errored with
  | false => rfl
  | true =>
    rw [phase1_sticky now chunks s hE] at h
    rw [hE] at h
    simp at h

theorem chunkStep_collected (now : Nat) (s : S) (c : Chunk)
    (he : s.errored = false) :
    (chunkStep now s c).collected = s.collected ++ contentStr c := by
  have hfold : ∀ (tcs : List TCDelta) (s0 : S),
      (tcs.foldl (toolStep now) s0).collected = s0.collected := by
    intro tcs
    induction tcs with
    | nil => intro s0; rfl
    | cons x xs ih =>
      intro s0
      show (xs.foldl (toolStep now) (toolStep now s0 x)).collected = _
      rw [ih, (toolStep_collected_followup now s0 x).1]
  unfold chunkStep
  rw [if_neg (by simp [he])]
  cases hc : c.content with
  | none => rw [hfold]; simp [contentStr, hc]
  | some d =>
    by_cases hd : d = ""
    · rw [hfold]
      simp [contentStr, hc, hd]
    · rw [hfold]
      simp [contentStr, hc, hd]

theorem chunkStep_errored_back (now : Nat) (s : S) (c : Chunk)
    (h : (chunkStep now s c).errored = false) : s.errored = false := by
  cases hE : s.errored with
  | false => rfl
  | true =>
    rw [chunkStep_errored_id now s c hE] at h
    rw [hE] at h
    simp at h

theorem phase1_collected (now : Nat) (chunks : List Chunk) (s : S)
    (h : (phase1 now s chunks).errored = false) :
    (phase1 now s chunks).collected
      = chunks.foldl (fun a c => a ++ contentStr c) s.collected := by
  induction chunks generalizing s with
  | nil => rfl
  | cons c cs ih =>
    have h1 : (phase1 now (chunkStep now s c) cs).errored = false := h
    have h2 : (chunkStep now s c).errored = false :=
      phase1_errored_back now cs _ h1
    have h3 : s.errored = false := chunkStep_errored_back now s c h2
    show (phase1 now (chunkStep now s c) cs).collected = _
    rw [ih _ h1, chunkStep_collected now s c h3]
    simp only [List.foldl_cons]

theorem foldl_contentStr_append (l : List Chunk) (a : String) :
    l.foldl (fun x c => x ++ contentStr c) a = a ++ textConcat l := by
  induction l generalizing a with
  | nil => exact (String.append_empty a).symm
  | cons c cs ih =>
    show cs.foldl _ (a ++ contentStr c) = a ++ textConcat (c :: cs)
    rw [ih]
    have hcons : textConcat (c :: cs) = contentStr c ++ textConcat cs := by
      show cs.foldl _ ("" ++ contentStr c) = _
      rw [String.empty_append, ih]
    rw [hcons, String.append_assoc]

/-! ## Transcript shape invariant

During phase 1, the only history appends are the assistant-tool-call /
tool-result pairs of successful dispatches (sharing one `tool_id` and one
`tool_name`), possibly ending in a lone assistant-tool-call turn when the
handler invocation raised.  `TurnsShape t n e` says `t` is such a block
list for `n` parse successes with error flag `e`. -/

inductive TurnsShape : List Msg → Nat → Bool → Prop where
  | nil : TurnsShape [] 0 false
  | pair (t : List Msg) (n : Nat) (i nm aj c : String)
      (h : TurnsShape t n false) :
      TurnsShape (t ++ [.assistantToolCall i nm aj, .toolResult i nm c])
        (n + 1) false
  | fail (t : List Msg) (n : Nat) (i nm aj : String)
      (h : TurnsShape t n false) :
      TurnsShape (t ++ [.assistantToolCall i nm aj]) (n + 1) true

/-- Is a transcript turn an assistant text turn? -/
def isAT (m : Msg) : Bool :=
  match m with
  | .assistantText _ => true
  | _ => false

theorem TurnsShape_noAT {t : List Msg} {n : Nat} {e : Bool}
    (h : TurnsShape t n e) : ∀ m ∈ t, isAT m = false := by
  induction h with
  | nil => intro m hm; cases hm
  | pair t n i nm aj c _ ih =>
    intro m hm
    rcases List.mem_append.1 hm with hm1 | hm2
    · exact ih m hm1
    · rcases List.mem_cons.1 hm2 with h1 | h2
      · rw [h1]; rfl
      · rcases List.mem_cons.1 h2 with h3 | h4
        · rw [h3]; rfl
        · cases h4
  | fail t n i nm aj _ ih =>
    intro m hm
    rcases List.mem_append.1 hm with hm1 | hm2
    · exact ih m hm1
    · rcases List.mem_cons.1 hm2 with h1 | h2
      · rw [h1]; rfl
      · cases h2

theorem TurnsShape_zero {t : List Msg} {e : Bool}
    (h : TurnsShape t 0 e) : t = [] ∧ e = false := by
  cases h with
  | nil => exact ⟨rfl, rfl⟩

theorem TurnsShape_one {t : List Msg}
    (h : TurnsShape t 1 false) :
    ∃ i nm aj c, t = [.assistantToolCall i nm aj, .toolResult i nm c] := by
  cases h with
  | pair t' n i nm aj c h' =>
    have hz := TurnsShape_zero h'
    exact ⟨i, nm, aj, c, by rw [hz.1]; rfl⟩

/-- The history of `s` is `base` plus a well-shaped dispatch tail counted
by `s.dispatches` and flagged by `s.errored`. -/
def histShape (base : List Msg) (s : S) : Prop :=
  ∃ t, s.history = base ++ t ∧ TurnsShape t s.dispatches s.errored

theorem toolStep_histShape (now : Nat) (s : S) (tc : TCDelta)
    (base : List Msg) (h : histShape base s) :
    histShape base (toolStep now s tc) := by
  obtain ⟨t, ht, hts⟩ := h
  cases hE : s.errored with
  | true => rw [toolStep_errored now s tc hE]; exact ⟨t, ht, hts⟩
  | false =>
    by_cases ha : tc.args = ""
    · rw [toolStep_eq_empty now s tc hE ha]
      exact ⟨t, ht, hts⟩
    · cases hp : jsonParse (s.arg_buffer ++ tc.args) with
      | none =>
        rw [toolStep_eq_buffering now s tc hE ha hp]
        exact ⟨t, ht, hts⟩
      | some args =>
        have hts0 : TurnsShape t s.dispatches false := hE ▸ hts
        cases hc : callFun2 args with
        | none =>
          rw [toolStep_eq_failDispatch now s tc args hE ha hp hc]
          refine ⟨t ++ [.assistantToolCall (pyOr tc.id (synthId now))
            (pyOr tc.name "worlds") (jsonDump args)], ?_, ?_⟩
          · show s.history ++ _ = _
            rw [ht, List.append_assoc]
          · exact TurnsShape.fail t s.dispatches _ _ _ hts0
        | some yields =>
          rw [toolStep_eq_dispatch now s tc args yields hE ha hp hc]
          refine ⟨t ++ [.assistantToolCall (pyOr tc.id (synthId now))
              (pyOr tc.name "worlds") (jsonDump args),
            .toolResult (pyOr tc.id (synthId now)) (pyOr tc.name "worlds")
              (jsonDump (.arr (s.tool_output_chunks ++ storedOf yields)))],
            ?_, ?_⟩
          · show s.history ++ _ = _
            rw [ht, List.append_assoc]
          · dsimp only
            rw [hE]
            exact TurnsShape.pair t s.dispatches _ _ _ _ hts0

theorem chunkStep_histShape (now : Nat) (s : S) (c : Chunk)
    (base : List Msg) (h : histShape base s) :
    histShape base (chunkStep now s c) := by
  cases hE : s.errored with
  | true => rw [chunkStep_errored_id now s c hE]; exact h
  | false =>
    unfold chunkStep
    rw [if_neg (by simp [hE])]
    have h1 : histShape base
        (match c.content with
         | some d =>
           if d ≠ "" then
             { s with out := s.out ++ [.str d], collected := s.collected ++ d }
           else s
         | none => s) := by
      obtain ⟨t, ht, hts⟩ := h
      cases c.content with
      | none => exact ⟨t, ht, hts⟩
      | some d =>
        by_cases hd : d = "" <;> simp [hd] <;> exact ⟨t, ht, hts⟩
    exact foldl_pres (fun s0 tc h0 => toolStep_histShape now s0 tc base h0)
      c.toolCalls _ h1

theorem phase1_histShape (now : Nat) (chunks : List Chunk) (s : S)
    (base : List Msg) (h : histShape base s) :
    histShape base (phase1 now s chunks) :=
  foldl_pres (fun s0 c h0 => chunkStep_histShape now s0 c base h0) chunks s h

/-! ## Phase-2 and finalization lemmas -/

theorem phase2Step_fields (s : S) (c : Chunk) :
    (phase2Step s c).history = s.history ∧
    (phase2Step s c).dispatches = s.dispatches ∧
    (phase2Step s c).errored = s.errored ∧
    (phase2Step s c).tool_name = s.tool_name ∧
    (phase2Step s c).tool_output_chunks = s.tool_output_chunks ∧
    (phase2Step s c).dispatchedArgs = s.dispatchedArgs ∧
    (phase2Step s c).followupOpened = s.followupOpened := by
  unfold phase2Step
  cases c.content with
  | none => exact ⟨rfl, rfl, rfl, rfl, rfl, rfl, rfl⟩
  | some d =>
    by_cases hd : d = "" <;> simp [hd]

theorem foldl_phase2Step_fields (l : List Chunk) (s : S) :
    ((l.foldl phase2Step s).history = s.history ∧
     (l.foldl phase2Step s).dispatches = s.dispatches ∧
     (l.foldl phase2Step s).errored = s.errored ∧
     (l.foldl phase2Step s).tool_name = s.tool_name ∧
     (l.foldl phase2Step s).tool_output_chunks = s.tool_output_chunks ∧
     (l.foldl phase2Step s).dispatchedArgs = s.dispatchedArgs ∧
     (l.foldl phase2Step s).followupOpened = s.followupOpened) := by
  induction l generalizing s with
  | nil => exact ⟨rfl, rfl, rfl, rfl, rfl, rfl, rfl⟩
  | cons x xs ih =>
    have h := phase2Step_fields s x
    have h2 := ih (phase2Step s x)
    simp only [List.foldl_cons]
    exact ⟨h2.1.trans h.1, h2.2.1.trans h.2.1, h2.2.2.1.trans h.2.2.1,
      h2.2.2.2.1.trans h.2.2.2.1, h2.2.2.2.2.1.trans h.2.2.2.2.1,
      h2.2.2.2.2.2.1.trans h.2.2.2.2.2.1, h2.2.2.2.2.2.2.trans h.2.2.2.2.2.2⟩

theorem phase2Step_collected (s : S) (c : Chunk) :
    (phase2Step s c).collected = s.collected ++ contentStr c := by
  unfold phase2Step
  cases hc : c.content with
  | none => simp [contentStr, hc]
  | some d => by_cases hd : d = "" <;> simp [contentStr, hc, hd]

theorem phase2Step_out (s : S) (c : Chunk) :
    (phase2Step s c).out = s.out ++ textOutOf c := by
  unfold phase2Step textOutOf
  cases hc : c.content with
  | none => simp
  | some d => by_cases hd : d = "" <;> simp [hd]

theorem foldl_phase2Step_collected (l : List Chunk) (s : S) :
    (l.foldl phase2Step s).collected = s.collected ++ textConcat l := by
  induction l generalizing s with
  | nil => exact (String.append_empty _).symm
  | cons c cs ih =>
    simp only [List.foldl_cons]
    rw [ih, phase2Step_collected]
    rw [show textConcat (c :: cs) = contentStr c ++ textConcat cs from by
      show cs.foldl _ ("" ++ contentStr c) = _
      rw [String.empty_append, foldl_contentStr_append]]
    rw [String.append_assoc]

theorem foldl_phase2Step_out (l : List Chunk) (s : S) :
    (l.foldl phase2Step s).out = s.out ++ textOuts l := by
  induction l generalizing s with
  | nil => simp [textOuts]
  | cons c cs ih =>
    simp only [List.foldl_cons]
    rw [ih, phase2Step_out]
    simp [textOuts, List.append_assoc]

/-! ## Recorded tool-name invariant -/

/-- A recorded `tool_name` is absent or a nonempty string (line 150 always
assigns `... or "worlds"`). -/
def goodToolName (s : S) : Prop :=
  s.tool_name = none ∨ ∃ n, s.tool_name = some n ∧ n ≠ ""

theorem pyOr_ne_empty (o : Option String) (d : String) (hd : d ≠ "") :
    pyOr o d ≠ "" := by
  unfold pyOr
  cases o with
  | none => exact hd
  | some s => by_cases hs : s = "" <;> simp [hs, hd]

theorem toolStep_goodName (now : Nat) (s : S) (tc : TCDelta)
    (h : goodToolName s) : goodToolName (toolStep now s tc) := by
  cases hE : s.errored with
  | true => rw [toolStep_errored now s tc hE]; exact h
  | false =>
    have hgood : ∀ s' : S, s'.tool_name = some (pyOr tc.name "worlds") →
        goodToolName s' := by
      intro s' hs'
      exact Or.inr ⟨pyOr tc.name "worlds", hs',
        pyOr_ne_empty tc.name "worlds" (by decide)⟩
    by_cases ha : tc.args = ""
    · rw [toolStep_eq_empty now s tc hE ha]; exact hgood _ rfl
    · cases hp : jsonParse (s.arg_buffer ++ tc.args) with
      | none => rw [toolStep_eq_buffering now s tc hE ha hp]; exact hgood _ rfl
      | some args =>
        cases hc : callFun2 args with
        | none =>
          rw [toolStep_eq_failDispatch now s tc args hE ha hp hc]
          exact hgood _ rfl
        | some yields =>
          rw [toolStep_eq_dispatch now s tc args yields hE ha hp hc]
          exact hgood _ rfl

theorem chunkStep_goodName (now : Nat) (s : S) (c : Chunk)
    (h : goodToolName s) : goodToolName (chunkStep now s c) := by
  cases hE : s.errored with
  | true => rw [chunkStep_errored_id now s c hE]; exact h
  | false =>
    unfold chunkStep
    rw [if_neg (by simp [hE])]
    refine foldl_pres (fun s0 tc h0 => toolStep_goodName now s0 tc h0)
      c.toolCalls _ ?_
    cases c.content with
    | none => exact h
    | some d =>
      by_cases hd : d = ""
      · simp only [hd, ne_eq, not_true_eq_false, if_false]
        exact h
      · simp only [ne_eq, hd, not_false_eq_true, if_true]
        rcases h with h1 | ⟨n, hn, hne⟩
        · exact Or.inl h1
        · exact Or.inr ⟨n, hn, hne⟩

theorem phase1_goodName (now : Nat) (chunks : List Chunk) (s : S)
    (h : goodToolName s) : goodToolName (phase1 now s chunks) :=
  foldl_pres (fun s0 c h0 => chunkStep_goodName now s0 c h0) chunks s h

theorem goodName_truthy (o : Option String)
    (h : o = none ∨ ∃ n, o = some n ∧ n ≠ "") :
    pyTruthyOptStr o = true ↔ o ≠ none := by
  rcases h with h1 | ⟨n, hn, hne⟩
  · simp [h1, pyTruthyOptStr]
  · simp [hn, pyTruthyOptStr, hne]

/-! ## `askRun` decomposition -/

theorem askPhase2_fields (s1 : S) (followup : List Chunk) :
    (askPhase2 s1 followup).history = s1.history ∧
    (askPhase2 s1 followup).dispatches = s1.dispatches ∧
    (askPhase2 s1 followup).errored = s1.errored ∧
    (askPhase2 s1 followup).tool_name = s1.tool_name ∧
    (askPhase2 s1 followup).tool_output_chunks = s1.tool_output_chunks := by
  unfold askPhase2
  split
  · exact ⟨(foldl_phase2Step_fields followup _).1,
      (foldl_phase2Step_fields followup _).2.1,
      (foldl_phase2Step_fields followup _).2.2.1,
      (foldl_phase2Step_fields followup _).2.2.2.1,
      (foldl_phase2Step_fields followup _).2.2.2.2.1⟩
  · exact ⟨rfl, rfl, rfl, rfl, rfl⟩

theorem askRun_core (hist0 : List Msg) (q : String)
    (primary followup : List Chunk) (now : Nat) :
    ∃ s2 : S, askRun hist0 q primary followup now = finalizeCycle s2 ∧
      s2.history = (phase1 now (initS hist0 q) primary).history ∧
      s2.dispatches = (phase1 now (initS hist0 q) primary).dispatches ∧
      s2.errored = (phase1 now (initS hist0 q) primary).errored :=
  ⟨askPhase2 (phase1 now (initS hist0 q) primary) followup, rfl,
    (askPhase2_fields _ followup).1, (askPhase2_fields _ followup).2.1,
    (askPhase2_fields _ followup).2.2.1⟩

theorem initS_histShape (hist0 : List Msg) (q : String) :
    histShape (hist0 ++ [Msg.user q]) (initS hist0 q) :=
  ⟨[], by simp [initS], TurnsShape.nil⟩

/-! ## Claim C1 -/

/-- C1: for an in-flight tool call, every incoming nonempty argument
fragment is appended to the argument buffer and the full buffer is then
parsed.  A parse failure leaves the call buffering — buffer extended, no
dispatch, no history change, no error.  A parse success triggers exactly
one dispatch carrying exactly the parsed arguments, after which the buffer
is reset to the empty string.  (The source keeps a single buffer,
`partial_args`, for the one in-flight call of a turn; it is the buffer
that `tool_call` fragments of the current call identity feed.) -/
theorem C1_fragment_buffering (now : Nat) (s : S) (tc1 tc2 : TCDelta)
    (v : JVal) (yields : List JVal)
    (he : s.errored = false)
    (h1 : ¬tc1.args = "") (h2 : ¬tc2.args = "")
    (hp1 : jsonParse (s.arg_buffer ++ tc1.args) = none)
    (hp2 : jsonParse (s.arg_buffer ++ tc1.args ++ tc2.args) = some v)
    (hv : callFun2 v = some yields) :
    ((toolStep now s tc1).arg_buffer = s.arg_buffer ++ tc1.args ∧
     (toolStep now s tc1).dispatches = s.dispatches ∧
     (toolStep now s tc1).dispatchedArgs = s.dispatchedArgs ∧
     (toolStep now s tc1).errored = false ∧
     (toolStep now s tc1).history = s.history) ∧
    ((toolStep now (toolStep now s tc1) tc2).dispatches = s.dispatches + 1 ∧
     (toolStep now (toolStep now s tc1) tc2).dispatchedArgs
        = s.dispatchedArgs ++ [v] ∧
     (toolStep now (toolStep now s tc1) tc2).arg_buffer = "" ∧
     (toolStep now (toolStep now s tc1) tc2).errored = false) := by
  have e1 := toolStep_eq_buffering now s tc1 he h1 hp1
  rw [e1]
  have e2 := toolStep_eq_dispatch now
    { s with tool_name := some (pyOr tc1.name "worlds"),
             arg_buffer := s.arg_buffer ++ tc1.args }
    tc2 v yields he h2 hp2 hv
  rw [e2]
  exact ⟨⟨rfl, rfl, rfl, he, rfl⟩, ⟨rfl, rfl, rfl, he⟩⟩

/-- Fragment 1 of the spec's fragment-join test. -/
def wTC1 : TCDelta :=
  { name := some "fun_2", id := some "call_w1", args := "\x7b\"a\":" }

/-- Fragment 2 of the spec's fragment-join test. -/
def wTC2 : TCDelta :=
  { name := none, id := none, args := "1,\"b\":2\x7d" }

/-- The arguments object of the spec's fragment-join test. -/
def wArgs : JVal :=
  .obj [("a", .int 1), ("b", .int 2)]

theorem C1_fragment_buffering_witness :
    (((toolStep 7 (initS [] "q") wTC1).arg_buffer
        = (initS [] "q").arg_buffer ++ wTC1.args ∧
      (toolStep 7 (initS [] "q") wTC1).dispatches = (initS [] "q").dispatches ∧
      (toolStep 7 (initS [] "q") wTC1).dispatchedArgs
        = (initS [] "q").dispatchedArgs ∧
      (toolStep 7 (initS [] "q") wTC1).errored = false ∧
      (toolStep 7 (initS [] "q") wTC1).history = (initS [] "q").history) ∧
     ((toolStep 7 (toolStep 7 (initS [] "q") wTC1) wTC2).dispatches
        = (initS [] "q").dispatches + 1 ∧
      (toolStep 7 (toolStep 7 (initS [] "q") wTC1) wTC2).dispatchedArgs
        = (initS [] "q").dispatchedArgs ++ [wArgs] ∧
      (toolStep 7 (toolStep 7 (initS [] "q") wTC1) wTC2).arg_buffer = "" ∧
      (toolStep 7 (toolStep 7 (initS [] "q") wTC1) wTC2).errored = false)) :=
  C1_fragment_buffering 7 (initS [] "q") wTC1 wTC2 wArgs (fun_2_yields 1 2)
    rfl (by decide) (by decide) rfl rfl rfl

/-! ## Claim C2 -/

/-- C2: after a full `ask` cycle that triggers a (single) tool call and
completes without a handler error, the transcript's last four turns are,
in order, User, AssistantToolCall, ToolResult, AssistantText, and the
ToolResult's `call_id` equals that of the immediately preceding
AssistantToolCall turn (they also share the tool name). -/
theorem C2_transcript_adjacency (hist0 : List Msg) (q : String)
    (primary followup : List Chunk) (now : Nat)
    (hd : (askRun hist0 q primary followup now).dispatches = 1)
    (he : (askRun hist0 q primary followup now).errored = false) :
    ∃ i nm aj c col,
      (askRun hist0 q primary followup now).history =
        hist0 ++ [Msg.user q, Msg.assistantToolCall i nm aj,
          Msg.toolResult i nm c, Msg.assistantText col] := by
  obtain ⟨s2, hr, hh, hdisp, herr⟩ :=
    askRun_core hist0 q primary followup now
  have hs1 := phase1_histShape now primary (initS hist0 q)
    (hist0 ++ [Msg.user q]) (initS_histShape hist0 q)
  obtain ⟨t, ht, hts⟩ := hs1
  have hd1 : (phase1 now (initS hist0 q) primary).dispatches = 1 := by
    rw [← hdisp]
    rw [hr] at hd
    exact hd
  have he1 : (phase1 now (initS hist0 q) primary).errored = false := by
    rw [← herr]
    rw [hr] at he
    exact he
  rw [hd1, he1] at hts
  obtain ⟨i, nm, aj, c, htshape⟩ := TurnsShape_one hts
  refine ⟨i, nm, aj, c, s2.collected, ?_⟩
  rw [hr]
  show s2.history ++ [Msg.assistantText s2.collected] = _
  rw [hh, ht, htshape]
  simp

theorem C2_transcript_adjacency_witness :
    ∃ i nm aj c col,
      (askRun [] "add 1 and 2"
        [{ content := some "calling", toolCalls := [
            { name := some "fun_2", id := some "call_w2",
              args := "\x7b\"a\":1,\"b\":2\x7d" }] }]
        [{ content := some " done" }] 5).history =
      [] ++ [Msg.user "add 1 and 2", Msg.assistantToolCall i nm aj,
        Msg.toolResult i nm c, Msg.assistantText col] :=
  C2_transcript_adjacency [] "add 1 and 2"
    [{ content := some "calling", toolCalls := [
        { name := some "fun_2", id := some "call_w2",
          args := "\x7b\"a\":1,\"b\":2\x7d" }] }]
    [{ content := some " done" }] 5 rfl rfl

/-! ## Claim C3 -/

/-- The transcript of `r` extends `hist0` by the user turn, a tail free of
assistant-text turns, and exactly one closing assistant-text turn carrying
`content`. -/
def closingAT (hist0 : List Msg) (q : String) (r : S) (content : String) :
    Prop :=
  ∃ t, r.history = hist0 ++ (Msg.user q :: t) ++ [Msg.assistantText content] ∧
    ∀ m ∈ t, isAT m = false

theorem phase1_followupOpened (now : Nat) (chunks : List Chunk) (s : S) :
    (phase1 now s chunks).followupOpened = s.followupOpened := by
  have hchunk : ∀ (s0 : S) (c : Chunk),
      (chunkStep now s0 c).followupOpened = s0.followupOpened := by
    intro s0 c
    cases hE : s0.errored with
    | true => rw [chunkStep_errored_id now s0 c hE]
    | false =>
      unfold chunkStep
      rw [if_neg (by simp [hE])]
      have hfold : ∀ (tcs : List TCDelta) (st : S),
          (tcs.foldl (toolStep now) st).followupOpened = st.followupOpened := by
        intro tcs
        induction tcs with
        | nil => intro st; rfl
        | cons x xs ih =>
          intro st
          show (xs.foldl (toolStep now) (toolStep now st x)).followupOpened = _
          rw [ih, (toolStep_collected_followup now st x).2]
      rw [hfold]
      cases hc : c.content with
      | none => rfl
      | some d => by_cases hd : d = "" <;> simp [hd]
  induction chunks generalizing s with
  | nil => rfl
  | cons c cs ih =>
    show (phase1 now (chunkStep now s c) cs).followupOpened = _
    rw [ih, hchunk]

/-- C3: every `ask` invocation appends exactly one closing AssistantText
turn — as the final turn — whose content is exactly the text accumulated
before the exit point (possibly empty), whether the cycle completes
normally or is interrupted during either streaming phase; and on an
interruption, the distinguished sentinel `"\n[INTERRUPTED]\n"` is the last
value emitted to the caller before finalization.  (The hypotheses restrict
to cycles whose processed prefix raised no handler exception, which is
when an interruption — rather than an error propagation — is the exit
route.) -/
theorem C3_interruption_finalization (hist0 : List Msg) (q : String)
    (primary followup : List Chunk) (now k j : Nat)
    (he1 : (phase1 now (initS hist0 q) (primary.take k)).errored = false)
    (he2 : (phase1 now (initS hist0 q) primary).errored = false) :
    (closingAT hist0 q (askRunInt1 hist0 q primary now k)
        (textConcat (primary.take k)) ∧
      (askRunInt1 hist0 q primary now k).out
        = (phase1 now (initS hist0 q) (primary.take k)).out ++
            [interruptSentinel]) ∧
    (followCond (phase1 now (initS hist0 q) primary) = true →
      closingAT hist0 q (askRunInt2 hist0 q primary followup now j)
        (textConcat primary ++ textConcat (followup.take j)) ∧
      (askRunInt2 hist0 q primary followup now j).out
        = ((followup.take j).foldl phase2Step
            (phase1 now (initS hist0 q) primary)).out ++
            [interruptSentinel]) ∧
    closingAT hist0 q (askRun hist0 q primary followup now)
      (askPhase2 (phase1 now (initS hist0 q) primary) followup).collected := by
  obtain ⟨t1, ht1, hts1⟩ := phase1_histShape now (primary.take k)
    (initS hist0 q) (hist0 ++ [Msg.user q]) (initS_histShape hist0 q)
  obtain ⟨t2, ht2, hts2⟩ := phase1_histShape now primary
    (initS hist0 q) (hist0 ++ [Msg.user q]) (initS_histShape hist0 q)
  have hcol1 : (phase1 now (initS hist0 q) (primary.take k)).collected
      = textConcat (primary.take k) :=
    phase1_collected now (primary.take k) (initS hist0 q) he1
  have hcol2 : (phase1 now (initS hist0 q) primary).collected
      = textConcat primary :=
    phase1_collected now primary (initS hist0 q) he2
  refine ⟨⟨⟨t1, ?_, TurnsShape_noAT hts1⟩, rfl⟩, ?_, ?_⟩
  · show (phase1 now (initS hist0 q) (primary.take k)).history ++ _ = _
    rw [ht1, hcol1]
    simp
  · intro hf
    have hgate : (decide ((phase1 now (initS hist0 q) primary).errored = false)
        && followCond (phase1 now (initS hist0 q) primary)) = true := by
      simp [he2, hf]
    constructor
    · refine ⟨t2, ?_, TurnsShape_noAT hts2⟩
      show (askInt2 (phase1 now (initS hist0 q) primary) followup j).history
        = _
      unfold askInt2
      rw [if_pos hgate]
      show ((followup.take j).foldl phase2Step
          (phase1 now (initS hist0 q) primary)).history ++
        [Msg.assistantText ((followup.take j).foldl phase2Step
          (phase1 now (initS hist0 q) primary)).collected] = _
      rw [(foldl_phase2Step_fields (followup.take j) _).1,
        foldl_phase2Step_collected, hcol2, ht2]
      simp
    · show (askInt2 (phase1 now (initS hist0 q) primary) followup j).out = _
      unfold askInt2
      rw [if_pos hgate]
      rfl
  · refine ⟨t2, ?_, TurnsShape_noAT hts2⟩
    show (askPhase2 (phase1 now (initS hist0 q) primary) followup).history
        ++ _ = _
    rw [(askPhase2_fields _ followup).1, ht2]
    simp

/-- A primary stream with one text chunk and one completing tool call. -/
def exPrimary : List Chunk :=
  [{ content := some "Hello" },
   { content := some "!",
     toolCalls := [{ name := some "fun_2", id := some "call_w3",
                     args := "\x7b\"a\":2,\"b\":3\x7d" }] }]

/-- A follow-up stream with two text chunks. -/
def exFollowup : List Chunk :=
  [{ content := some "X" }, { content := some "Y" }]

theorem C3_interruption_finalization_witness :
    (closingAT [] "hi" (askRunInt1 [] "hi" exPrimary 3 1)
        (textConcat (exPrimary.take 1)) ∧
      (askRunInt1 [] "hi" exPrimary 3 1).out
        = (phase1 3 (initS [] "hi") (exPrimary.take 1)).out ++
            [interruptSentinel]) ∧
    (followCond (phase1 3 (initS [] "hi") exPrimary) = true →
      closingAT [] "hi" (askRunInt2 [] "hi" exPrimary exFollowup 3 1)
        (textConcat exPrimary ++ textConcat (exFollowup.take 1)) ∧
      (askRunInt2 [] "hi" exPrimary exFollowup 3 1).out
        = ((exFollowup.take 1).foldl phase2Step
            (phase1 3 (initS [] "hi") exPrimary)).out ++
            [interruptSentinel]) ∧
    closingAT [] "hi" (askRun [] "hi" exPrimary exFollowup 3)
      (askPhase2 (phase1 3 (initS [] "hi") exPrimary) exFollowup).collected :=
  C3_interruption_finalization [] "hi" exPrimary exFollowup 3 1 1 rfl rfl

/-! ## Claim C4 -/

/-- The chunk `c` with its tool-call deltas removed. -/
def textOnly (c : Chunk) : Chunk :=
  { content := c.content, toolCalls := [] }

theorem askPhase2_followupOpened (s1 : S) (followup : List Chunk)
    (hso : s1.followupOpened = false) :
    (askPhase2 s1 followup).followupOpened
      = (decide (s1.errored = false) && followCond s1) := by
  unfold askPhase2
  split
  · next hcond =>
    rw [hcond]
  · next hcond =>
    rw [hso]
    exact (Bool.eq_false_iff.2 hcond).symm

/-- C4: the follow-up stream is opened exactly when the accumulator holds
at least one stored item and a tool name was recorded; in particular a
serialized-empty (`"[]"`) accumulator means no follow-up even though a
tool call may have been seen; and when the follow-up is opened, its text
deltas are forwarded to the caller and accumulated exactly like the
primary stream's (a follow-up chunk is processed as a primary chunk with
no tool calls would be). -/
theorem C4_followup_gating (hist0 : List Msg) (q : String)
    (primary followup : List Chunk) (now : Nat)
    (he : (phase1 now (initS hist0 q) primary).errored = false) :
    ((askRun hist0 q primary followup now).followupOpened = true ↔
      ((phase1 now (initS hist0 q) primary).tool_output_chunks ≠ [] ∧
       (phase1 now (initS hist0 q) primary).tool_name ≠ none)) ∧
    ((phase1 now (initS hist0 q) primary).tool_output_chunks = [] →
      jsonDump (.arr (phase1 now (initS hist0 q) primary).tool_output_chunks)
        = "[]" ∧
      (askRun hist0 q primary followup now).followupOpened = false) ∧
    ((askRun hist0 q primary followup now).followupOpened = true →
      (askRun hist0 q primary followup now).out
        = (phase1 now (initS hist0 q) primary).out ++ textOuts followup ∧
      (askRun hist0 q primary followup now).collected
        = (phase1 now (initS hist0 q) primary).collected ++
            textConcat followup) ∧
    (∀ (s : S) (c : Chunk), s.errored = false →
      phase2Step s c = chunkStep now s (textOnly c)) := by
  have hso : (phase1 now (initS hist0 q) primary).followupOpened = false :=
    phase1_followupOpened now primary (initS hist0 q)
  have hopen : (askRun hist0 q primary followup now).followupOpened
      = (decide ((phase1 now (initS hist0 q) primary).errored = false)
          && followCond (phase1 now (initS hist0 q) primary)) :=
    askPhase2_followupOpened _ followup hso
  have hgn := goodName_truthy (phase1 now (initS hist0 q) primary).tool_name
    (phase1_goodName now primary (initS hist0 q) (Or.inl rfl))
  refine ⟨?_, ?_, ?_, ?_⟩
  · rw [hopen]
    unfold followCond
    simp only [Bool.and_eq_true, Bool.not_eq_true', List.isEmpty_eq_false,
      decide_eq_true_eq]
    constructor
    · rintro ⟨-, h1, h2⟩
      exact ⟨h1, hgn.1 h2⟩
    · rintro ⟨h1, h2⟩
      exact ⟨he, h1, hgn.2 h2⟩
  · intro hempty
    refine ⟨by rw [hempty]; rfl, ?_⟩
    rw [hopen]
    simp [followCond, hempty]
  · intro hopened
    have hgate : (decide ((phase1 now (initS hist0 q) primary).errored = false)
        && followCond (phase1 now (initS hist0 q) primary)) = true := by
      rw [← hopen]; exact hopened
    have haskp : askPhase2 (phase1 now (initS hist0 q) primary) followup
        = { followup.foldl phase2Step (phase1 now (initS hist0 q) primary)
            with followupOpened := true } := by
      unfold askPhase2
      rw [if_pos hgate]
    constructor
    · show (askPhase2 (phase1 now (initS hist0 q) primary) followup).out = _
      rw [haskp]
      show (followup.foldl phase2Step _).out = _
      rw [foldl_phase2Step_out]
    · show (askPhase2 (phase1 now (initS hist0 q) primary) followup).collected
        = _
      rw [haskp]
      show (followup.foldl phase2Step _).collected = _
      rw [foldl_phase2Step_collected]
  · intro s c hse
    unfold phase2Step chunkStep
    rw [if_neg (by simp [hse])]
    rfl

theorem C4_followup_gating_witness :
    ((askRun [] "hi" exPrimary exFollowup 3).followupOpened = true ↔
      ((phase1 3 (initS [] "hi") exPrimary).tool_output_chunks ≠ [] ∧
       (phase1 3 (initS [] "hi") exPrimary).tool_name ≠ none)) ∧
    ((phase1 3 (initS [] "hi") exPrimary).tool_output_chunks = [] →
      jsonDump (.arr (phase1 3 (initS [] "hi") exPrimary).tool_output_chunks)
        = "[]" ∧
      (askRun [] "hi" exPrimary exFollowup 3).followupOpened = false) ∧
    ((askRun [] "hi" exPrimary exFollowup 3).followupOpened = true →
      (askRun [] "hi" exPrimary exFollowup 3).out
        = (phase1 3 (initS [] "hi") exPrimary).out ++ textOuts exFollowup ∧
      (askRun [] "hi" exPrimary exFollowup 3).collected
        = (phase1 3 (initS [] "hi") exPrimary).collected ++
            textConcat exFollowup) ∧
    (∀ (s : S) (c : Chunk), s.errored = false →
      phase2Step s c = chunkStep 3 s (textOnly c)) :=
  C4_followup_gating [] "hi" exPrimary exFollowup 3 rfl

/-! ## Claim C5 -/

/-- Is the value a mapping (`isinstance(x, dict)`)? -/
def isObjB : JVal → Bool
  | .obj _ => true
  | _ => false

theorem getKey_append (l1 l2 : List (String × JVal)) (k : String) :
    getKey (l1 ++ l2) k =
      (match getKey l1 k with
       | some v => some v
       | none => getKey l2 k) := by
  induction l1 with
  | nil => rfl
  | cons kv rest ih =>
    obtain ⟨k1, v1⟩ := kv
    by_cases hk : k1 = k <;> simp [getKey, hk, ih]

theorem normalize_nonmap (v : JVal) (hv : isObjB v = false) :
    normalizeYield v = .obj [("display", v), ("store", .bool false)] := by
  cases v <;> first
    | rfl
    | simp [isObjB] at hv

/-- Stage 1 of dict normalization: default the `store` key. -/
def norm1 (kvs : List (String × JVal)) : List (String × JVal) :=
  if (getKey kvs "store").isSome then kvs
  else kvs ++ [("store", JVal.bool false)]

/-- Stage 2 of dict normalization: synthesize the `display` key. -/
def norm2 (kvs1 : List (String × JVal)) : List (String × JVal) :=
  if (getKey kvs1 "display").isSome then kvs1
  else if (kvs1.filter (fun kv => kv.1 ≠ "store")).isEmpty then
    kvs1 ++ [("display", JVal.str "")]
  else kvs1 ++ [("display", JVal.obj (kvs1.filter (fun kv => kv.1 ≠ "store")))]

theorem normalizeYield_obj (kvs : List (String × JVal)) :
    normalizeYield (.obj kvs) = .obj (norm2 (norm1 kvs)) := rfl

theorem storeOf_obj (l : List (String × JVal)) :
    storeOf (.obj l) = (getKey l "store").getD (.bool false) := rfl

theorem dispOf_obj (l : List (String × JVal)) :
    dispOf (.obj l) = (getKey l "display").getD .null := rfl

theorem normalize_store_default (kvs : List (String × JVal))
    (hs : getKey kvs "store" = none) :
    storeOf (normalizeYield (.obj kvs)) = .bool false := by
  have h1 : norm1 kvs = kvs ++ [("store", JVal.bool false)] := by
    unfold norm1
    rw [hs]
    rfl
  have hst : getKey (kvs ++ [("store", JVal.bool false)]) "store"
      = some (.bool false) := by
    rw [getKey_append, hs]
    rfl
  rw [normalizeYield_obj, h1]
  unfold norm2
  by_cases hdisp :
      (getKey (kvs ++ [("store", JVal.bool false)]) "display").isSome
  · rw [if_pos hdisp, storeOf_obj, hst]
    rfl
  · rw [if_neg hdisp]
    by_cases hdd : ((kvs ++ [("store", JVal.bool false)]).filter
        (fun kv => kv.1 ≠ "store")).isEmpty
    · rw [if_pos hdd, storeOf_obj, getKey_append, hst]
      rfl
    · rw [if_neg hdd, storeOf_obj, getKey_append, hst]
      rfl

theorem normalize_display_synth (kvs : List (String × JVal))
    (hd : getKey kvs "display" = none) :
    dispOf (normalizeYield (.obj kvs)) =
      (if (kvs.filter (fun kv => kv.1 ≠ "store")).isEmpty then JVal.str ""
       else JVal.obj (kvs.filter (fun kv => kv.1 ≠ "store"))) := by
  rw [normalizeYield_obj]
  by_cases hst : (getKey kvs "store").isSome
  · have h1 : norm1 kvs = kvs := by
      unfold norm1
      rw [if_pos hst]
    rw [h1]
    unfold norm2
    rw [if_neg (by rw [hd]; simp)]
    by_cases hdd : (kvs.filter (fun kv => kv.1 ≠ "store")).isEmpty
    · rw [if_pos hdd, if_pos hdd, dispOf_obj, getKey_append, hd]
      rfl
    · rw [if_neg hdd, if_neg hdd, dispOf_obj, getKey_append, hd]
      rfl
  · have h1 : norm1 kvs = kvs ++ [("store", JVal.bool false)] := by
      unfold norm1
      rw [if_neg hst]
    have hd1 : getKey (kvs ++ [("store", JVal.bool false)]) "display"
        = none := by
      rw [getKey_append, hd]
      rfl
    have hfilter : ((kvs ++ [("store", JVal.bool false)]).filter
          (fun kv => kv.1 ≠ "store"))
        = kvs.filter (fun kv => kv.1 ≠ "store") := by
      rw [List.filter_append]
      simp
    rw [h1]
    unfold norm2
    rw [if_neg (by rw [hd1]; simp), hfilter]
    by_cases hdd : (kvs.filter (fun kv => kv.1 ≠ "store")).isEmpty
    · rw [if_pos hdd, if_pos hdd, dispOf_obj, getKey_append, hd1]
      rfl
    · rw [if_neg hdd, if_neg hdd, dispOf_obj, getKey_append, hd1]
      rfl

/-- C5: normalization of one raw tool-output item produces
`{display, store}` by wrapping a non-mapping item as
`{display: item, store: false}`, defaulting `store` to `false` when a
mapping lacks the `store` key, and — when a mapping lacks `display` —
synthesizing `display` as the sub-mapping of all its keys except `store`,
or as the empty string when no such keys exist; in particular `{}`
normalizes to `display == ""`. -/
theorem C5_yield_normalization (v : JVal)
    (kvsS kvsD : List (String × JVal))
    (hv : isObjB v = false)
    (hs : getKey kvsS "store" = none)
    (hd : getKey kvsD "display" = none) :
    normalizeYield v = .obj [("display", v), ("store", .bool false)] ∧
    storeOf (normalizeYield (.obj kvsS)) = .bool false ∧
    dispOf (normalizeYield (.obj kvsD)) =
      (if (kvsD.filter (fun kv => kv.1 ≠ "store")).isEmpty then JVal.str ""
       else JVal.obj (kvsD.filter (fun kv => kv.1 ≠ "store"))) ∧
    dispOf (normalizeYield (.obj [])) = JVal.str "" :=
  ⟨normalize_nonmap v hv, normalize_store_default kvsS hs,
   normalize_display_synth kvsD hd, by rfl⟩

theorem C5_yield_normalization_witness :
    normalizeYield (.str "x")
        = .obj [("display", .str "x"), ("store", .bool false)] ∧
    storeOf (normalizeYield (.obj [("display", JVal.str "x")]))
        = .bool false ∧
    dispOf (normalizeYield
        (.obj [("code", JVal.int 200), ("foo", JVal.str "bar")])) =
      (if (([("code", JVal.int 200), ("foo", JVal.str "bar")]).filter
          (fun kv => kv.1 ≠ "store")).isEmpty then JVal.str ""
       else JVal.obj (([("code", JVal.int 200), ("foo", JVal.str "bar")]).filter
          (fun kv => kv.1 ≠ "store"))) ∧
    dispOf (normalizeYield (.obj [])) = JVal.str "" :=
  C5_yield_normalization (.str "x") [("display", JVal.str "x")]
    [("code", JVal.int 200), ("foo", JVal.str "bar")] rfl rfl rfl

/-! ## Claim C6 -/

/-- C6: for each normalized item produced by one tool invocation, its
display value is emitted to the caller's output stream exactly when it is
non-empty (Python-truthy, the source's `if display_value:` test), and it
is appended to the tool output exactly when the `store` flag is truthy,
regardless of emission; the serialized tool result is the JSON array of
the stored display values in production order — on the spec's example
items `[("a", store), ("b", no-store), ("c", store)]` it is the JSON text
`["a", "c"]`. -/
theorem C6_emission_storage (s : S) (raw : JVal) :
    (processYield s raw).out = s.out ++
      (if pyTruthy (dispOf (normalizeYield raw))
       then [dispOf (normalizeYield raw)] else []) ∧
    (processYield s raw).tool_output_chunks = s.tool_output_chunks ++
      (if pyTruthy (storeOf (normalizeYield raw))
       then [dispOf (normalizeYield raw)] else []) ∧
    jsonDump (.arr (([JVal.obj [("display", .str "a"), ("store", .bool true)],
        JVal.obj [("display", .str "b"), ("store", .bool false)],
        JVal.obj [("display", .str "c"), ("store", .bool true)]].foldl
        processYield (initS [] "q")).tool_output_chunks))
      = "[\"a\", \"c\"]" :=
  ⟨processYield_out s raw, processYield_chunks s raw, by rfl⟩

/-! ## Claim C7 -/

/-- The complete-arguments fragment `'{"a":1,"b":2}'`. -/
def exToolArgs : String := "\x7b\"a\":1,\"b\":2\x7d"

/-- A chunk carrying one complete tool call with id `call_a`. -/
def exChunkA : Chunk :=
  { toolCalls := [{ name := some "fun_2", id := some "call_a",
                    args := exToolArgs }] }

/-- A chunk carrying one complete tool call with id `call_b`. -/
def exChunkB : Chunk :=
  { toolCalls := [{ name := some "fun_2", id := some "call_b",
                    args := exToolArgs }] }

/-- The stored display values of one `fun_2(1, 2)` invocation. -/
def storedOnce : List JVal := storedOf (fun_2_yields 1 2)

set_option maxRecDepth 8192

/-- C7 counterexample: in a cycle with two dispatches,
`tool_output_chunks` is initialized once per `ask_question` call (line
131), not per invocation, so the second dispatch's ToolResult payload
(history index 4) serializes the stored values of BOTH invocations — it
differs from the serialization of only the second invocation's values.
This falsifies the claim that each tool invocation uses its own
accumulator discarded after serialization. -/
theorem C7_counterexample :
    (askRun [] "q" [exChunkA, exChunkB] [] 0).history[4]?
      = some (.toolResult "call_b" "fun_2"
          (jsonDump (.arr (storedOnce ++ storedOnce)))) ∧
    jsonDump (.arr (storedOnce ++ storedOnce))
      ≠ jsonDump (.arr storedOnce) :=
  ⟨rfl, by decide⟩

/-- C7 amended: the accumulator (`tool_output_chunks`) is scoped per
`ask` cycle, not per tool invocation: each successful dispatch appends its
stored display values to the cycle-wide list and its ToolResult payload
serializes the entire accumulated list, including values carried over
from earlier dispatches of the same cycle. -/
theorem C7_cycle_accumulator (now : Nat) (s : S) (tc : TCDelta)
    (args : JVal) (yields : List JVal)
    (he : s.errored = false) (ha : ¬tc.args = "")
    (hp : jsonParse (s.arg_buffer ++ tc.args) = some args)
    (hc : callFun2 args = some yields) :
    (toolStep now s tc).tool_output_chunks
        = s.tool_output_chunks ++ storedOf yields ∧
    (toolStep now s tc).history = s.history ++
      [.assistantToolCall (pyOr tc.id (synthId now)) (pyOr tc.name "worlds")
        (jsonDump args),
       .toolResult (pyOr tc.id (synthId now)) (pyOr tc.name "worlds")
        (jsonDump (.arr (s.tool_output_chunks ++ storedOf yields)))] := by
  rw [toolStep_eq_dispatch now s tc args yields he ha hp hc]
  exact ⟨rfl, rfl⟩

/-- One complete tool-call delta with id `call_b`. -/
def exTC : TCDelta :=
  { name := some "fun_2", id := some "call_b", args := exToolArgs }

/-- An `ask` state whose cycle accumulator already holds a value. -/
def exPreloaded : S :=
  { initS [] "q" with tool_output_chunks := [JVal.str "prev"] }

theorem C7_cycle_accumulator_witness :
    (toolStep 0 exPreloaded exTC).tool_output_chunks
        = exPreloaded.tool_output_chunks ++ storedOf (fun_2_yields 1 2) ∧
    (toolStep 0 exPreloaded exTC).history = exPreloaded.history ++
      [.assistantToolCall (pyOr exTC.id (synthId 0)) (pyOr exTC.name "worlds")
        (jsonDump wArgs),
       .toolResult (pyOr exTC.id (synthId 0)) (pyOr exTC.name "worlds")
        (jsonDump (.arr (exPreloaded.tool_output_chunks ++
          storedOf (fun_2_yields 1 2))))] :=
  C7_cycle_accumulator 0 exPreloaded exTC wArgs (fun_2_yields 1 2)
    rfl (by decide) rfl rfl

/-! ## Claim C8 -/

theorem toolStep_tool_name (now : Nat) (s : S) (tc : TCDelta)
    (he : s.errored = false) :
    (toolStep now s tc).tool_name = some (pyOr tc.name "worlds") := by
  by_cases ha : tc.args = ""
  · rw [toolStep_eq_empty now s tc he ha]
  · cases hp : jsonParse (s.arg_buffer ++ tc.args) with
    | none => rw [toolStep_eq_buffering now s tc he ha hp]
    | some args =>
      cases hc : callFun2 args with
      | none => rw [toolStep_eq_failDispatch now s tc args he ha hp hc]
      | some yields =>
        rw [toolStep_eq_dispatch now s tc args yields he ha hp hc]

/-- C8: when a tool-call fragment carries no function name, the recorded
tool name is defaulted to the fixed placeholder `"worlds"` (line 150's
`... or "worlds"`), and dispatch proceeds under that placeholder instead
of failing: a completing fragment still dispatches, recording `"worlds"`
in both the assistant tool-call and tool-result turns. -/
theorem C8_placeholder_name (now : Nat) (s : S) (tc : TCDelta)
    (he : s.errored = false) (hn : tc.name = none) :
    (toolStep now s tc).tool_name = some "worlds" ∧
    (∀ (args : JVal) (yields : List JVal), ¬tc.args = "" →
      jsonParse (s.arg_buffer ++ tc.args) = some args →
      callFun2 args = some yields →
      (toolStep now s tc).dispatches = s.dispatches + 1 ∧
      (toolStep now s tc).history = s.history ++
        [.assistantToolCall (pyOr tc.id (synthId now)) "worlds"
          (jsonDump args),
         .toolResult (pyOr tc.id (synthId now)) "worlds"
          (jsonDump (.arr (s.tool_output_chunks ++ storedOf yields)))]) := by
  have hw : pyOr tc.name "worlds" = "worlds" := by
    rw [hn]
    rfl
  constructor
  · rw [toolStep_tool_name now s tc he, hw]
  · intro args yields ha hp hc
    rw [toolStep_eq_dispatch now s tc args yields he ha hp hc, hw]
    exact ⟨rfl, rfl⟩

/-- A complete tool-call delta that never received a function name. -/
def exNamelessTC : TCDelta :=
  { name := none, id := some "call_n", args := exToolArgs }

theorem C8_placeholder_name_witness :
    (toolStep 0 (initS [] "q") exNamelessTC).tool_name = some "worlds" ∧
    (∀ (args : JVal) (yields : List JVal), ¬exNamelessTC.args = "" →
      jsonParse ((initS [] "q").arg_buffer ++ exNamelessTC.args) = some args →
      callFun2 args = some yields →
      (toolStep 0 (initS [] "q") exNamelessTC).dispatches
          = (initS [] "q").dispatches + 1 ∧
      (toolStep 0 (initS [] "q") exNamelessTC).history
          = (initS [] "q").history ++
        [.assistantToolCall (pyOr exNamelessTC.id (synthId 0)) "worlds"
          (jsonDump args),
         .toolResult (pyOr exNamelessTC.id (synthId 0)) "worlds"
          (jsonDump (.arr ((initS [] "q").tool_output_chunks ++
            storedOf yields)))]) :=
  C8_placeholder_name 0 (initS [] "q") exNamelessTC rfl rfl

/-! ## Claim C9 -/

/-- A complete tool call under a name registered nowhere. -/
def exUnknownTC : TCDelta :=
  { name := some "no_such_tool", id := some "call_u", args := exToolArgs }

/-- C9 counterexample: dispatch does not resolve the reassembled tool name
against any registry and does not fail fast on an unknown name.  A cycle
whose only tool call is named `no_such_tool` completes without error,
dispatches exactly once — invoking the hard-coded handler `fun_2`
(line 179) — and records a ToolResult under the unknown name whose payload
is `fun_2`'s stored output.  This falsifies the claimed `UnknownTool`
fail-fast behaviour. -/
theorem C9_counterexample :
    (askRun [] "q" [{ toolCalls := [exUnknownTC] }] [] 0).errored = false ∧
    (askRun [] "q" [{ toolCalls := [exUnknownTC] }] [] 0).dispatches = 1 ∧
    (askRun [] "q" [{ toolCalls := [exUnknownTC] }] [] 0).history[2]?
      = some (.toolResult "call_u" "no_such_tool"
          (jsonDump (.arr (storedOf (fun_2_yields 1 2))))) :=
  ⟨rfl, rfl, rfl⟩

/-- C9 amended: dispatch never consults the reassembled tool name: it
always invokes the single hard-coded handler `fun_2`, so every
dispatch-relevant observable (dispatch count, dispatched arguments,
error flag, emitted output, accumulated tool output, argument buffer) is
unchanged under an arbitrary replacement of the fragment's function name;
no `UnknownTool` error exists. -/
theorem C9_no_name_resolution (now : Nat) (s : S) (tc : TCDelta)
    (n : Option String) :
    (toolStep now s { tc with name := n }).dispatches
        = (toolStep now s tc).dispatches ∧
    (toolStep now s { tc with name := n }).dispatchedArgs
        = (toolStep now s tc).dispatchedArgs ∧
    (toolStep now s { tc with name := n }).errored
        = (toolStep now s tc).errored ∧
    (toolStep now s { tc with name := n }).out
        = (toolStep now s tc).out ∧
    (toolStep now s { tc with name := n }).tool_output_chunks
        = (toolStep now s tc).tool_output_chunks ∧
    (toolStep now s { tc with name := n }).arg_buffer
        = (toolStep now s tc).arg_buffer := by
  cases hE : s.errored with
  | true =>
    rw [toolStep_errored now s { tc with name := n } hE,
      toolStep_errored now s tc hE]
    exact ⟨rfl, rfl, rfl, rfl, rfl, rfl⟩
  | false =>
    by_cases ha : tc.args = ""
    · rw [toolStep_eq_empty now s { tc with name := n } hE ha,
        toolStep_eq_empty now s tc hE ha]
      exact ⟨rfl, rfl, rfl, rfl, rfl, rfl⟩
    · cases hp : jsonParse (s.arg_buffer ++ tc.args) with
      | none =>
        rw [toolStep_eq_buffering now s { tc with name := n } hE ha hp,
          toolStep_eq_buffering now s tc hE ha hp]
        exact ⟨rfl, rfl, rfl, rfl, rfl, rfl⟩
      | some args =>
        cases hc : callFun2 args with
        | none =>
          rw [toolStep_eq_failDispatch now s { tc with name := n } args hE
              ha hp hc,
            toolStep_eq_failDispatch now s tc args hE ha hp hc]
          exact ⟨rfl, rfl, rfl, rfl, rfl, rfl⟩
        | some yields =>
          rw [toolStep_eq_dispatch now s { tc with name := n } args yields
              hE ha hp hc,
            toolStep_eq_dispatch now s tc args yields hE ha hp hc]
          exact ⟨rfl, rfl, rfl, rfl, rfl, rfl⟩

/-! ## Claim C10 -/

/-- C10: the tool name and call id are recomputed from every fragment
(lines 150–151), so the values of the fragment whose arrival completes the
arguments are the ones recorded and used at dispatch: when that last
fragment omits the function name and the call id, the transcript's
assistant tool-call and tool-result turns carry the placeholder `"worlds"`
and the freshly synthesized id `call_<now>` — even though an earlier
fragment of the same call may have supplied a real name and id. -/
theorem C10_last_fragment_wins (now : Nat) (s : S) (tc1 tc2 : TCDelta)
    (v : JVal) (yields : List JVal)
    (he : s.errored = false)
    (h1 : ¬tc1.args = "") (h2 : ¬tc2.args = "")
    (hp1 : jsonParse (s.arg_buffer ++ tc1.args) = none)
    (hp2 : jsonParse (s.arg_buffer ++ tc1.args ++ tc2.args) = some v)
    (hv : callFun2 v = some yields)
    (hn2 : tc2.name = none) (hi2 : tc2.id = none) :
    (toolStep now (toolStep now s tc1) tc2).tool_name = some "worlds" ∧
    (toolStep now (toolStep now s tc1) tc2).history = s.history ++
      [.assistantToolCall (synthId now) "worlds" (jsonDump v),
       .toolResult (synthId now) "worlds"
         (jsonDump (.arr (s.tool_output_chunks ++ storedOf yields)))] := by
  have e1 := toolStep_eq_buffering now s tc1 he h1 hp1
  rw [e1]
  have e2 := toolStep_eq_dispatch now
    { s with tool_name := some (pyOr tc1.name "worlds"),
             arg_buffer := s.arg_buffer ++ tc1.args }
    tc2 v yields he h2 hp2 hv
  rw [e2]
  rw [hn2, hi2]
  exact ⟨rfl, rfl⟩

theorem C10_last_fragment_wins_witness :
    (toolStep 9 (toolStep 9 (initS [] "q") wTC1) wTC2).tool_name
        = some "worlds" ∧
    (toolStep 9 (toolStep 9 (initS [] "q") wTC1) wTC2).history
        = (initS [] "q").history ++
      [.assistantToolCall (synthId 9) "worlds" (jsonDump wArgs),
       .toolResult (synthId 9) "worlds"
         (jsonDump (.arr ((initS [] "q").tool_output_chunks ++
           storedOf (fun_2_yields 1 2))))] :=
  C10_last_fragment_wins 9 (initS [] "q") wTC1 wTC2 wArgs (fun_2_yields 1 2)
    rfl (by decide) (by decide) rfl rfl rfl rfl rfl

end OpenAIStreamingTools
